import Mathlib

/-!
Verification of the ahoy command-runner's configuration-resolution core:
path expansion, import resolution and merging, command-tree building,
environment-file parsing, and the version-compatibility engine.

The Go source is embedded shallowly: Go strings are Lean `String`s handled
at the character-list level (UTF-8 byte order and code-point order agree, so
Go's bytewise string comparison is character-list lexicographic comparison);
the filesystem, the YAML unmarshaller and the process-wide version globals
are an explicit environment record `GoEnv`; fatal logger calls become an
`Except` error; non-fatal logger calls are accumulated in a log list; the
mutual recursion between getCommands and getSubCommands is fuelled.
-/

namespace Ahoy

/-! ### Character-level primitives mirroring Go's strings package -/

/-- strings.HasPrefix, at the character-list level. -/
def goHasPrefix (s p : String) : Bool := p.data.isPrefixOf s.data

/-- Character-list lexicographic order; agrees with Go's bytewise string
order because UTF-8 encoding preserves code-point order. -/
def charsLt : List Char → List Char → Bool
  | [], [] => false
  | [], _ :: _ => true
  | _ :: _, [] => false
  | a :: as, b :: bs => if a < b then true else if b < a then false else charsLt as bs

/-- Go string comparison a < b. -/
def goStrLt (a b : String) : Bool := charsLt a.data b.data

/-- Go string comparison a <= b. -/
def goStrLe (a b : String) : Bool := !goStrLt b a

/-- Insertion step of the ascending sort modelling sort.Strings. -/
def orderedInsert (x : String) : List String → List String
  | [] => [x]
  | y :: ys => if goStrLe x y then x :: y :: ys else y :: orderedInsert x ys

/-- Models sort.Strings: ascending bytewise-lexicographic order. On the
duplicate-free inputs the source feeds it (Go map keys) the sorted
permutation is unique, so the algorithm choice is immaterial. -/
def sortStrings : List String → List String
  | [] => []
  | x :: xs => orderedInsert x (sortStrings xs)

def splitOnCharAux (c : Char) : List Char → List Char → List (List Char)
  | [], acc => [acc.reverse]
  | x :: xs, acc =>
    if x = c then acc.reverse :: splitOnCharAux c xs []
    else splitOnCharAux c xs (x :: acc)

/-- strings.Split with a single-character separator. -/
def goSplitChar (s : String) (c : Char) : List String :=
  (splitOnCharAux c s.data []).map String.mk

/-- unicode.IsSpace restricted to Latin-1 (the wider Unicode space
categories never appear in the inputs of interest). -/
def goIsSpace (c : Char) : Bool :=
  c == ' ' || c == '\t' || c == '\n' || c == Char.ofNat 11 || c == Char.ofNat 12 ||
    c == '\r' || c == Char.ofNat 133 || c == Char.ofNat 160

/-- strings.TrimSpace. -/
def goTrimSpace (s : String) : String :=
  String.mk (((s.data.dropWhile goIsSpace).reverse.dropWhile goIsSpace).reverse)

/-- strings.Join. -/
def goStringsJoin (elems : List String) (sep : String) : String :=
  match elems with
  | [] => ""
  | x :: xs => xs.foldl (fun acc s => acc ++ sep ++ s) x

/-- part occurs contiguously inside big. -/
def strContains (big part : String) : Prop := ∃ x y, big.data = x ++ part.data ++ y

/-! ### filepath primitives (Unix rules, as in the source's deployment) -/

/-- Backtracking position for filepath.Clean's dot-dot case: starting from w,
step left while above the dotdot mark and not at a separator. -/
def backtrackW (out : List Char) (dotdot : Nat) : Nat → Nat
  | 0 => 0
  | w + 1 =>
    if w + 1 > dotdot && out.getD (w + 1) ' ' != '/' then backtrackW out dotdot w
    else w + 1

/-- Remove the last path element from the output buffer (Clean's dot-dot case). -/
def backtrack (out : List Char) (dotdot : Nat) : List Char :=
  out.take (backtrackW out dotdot (out.length - 1))

/-- Main loop of filepath.Clean (Unix). The fuel argument only discharges
termination: every step consumes at least one input character, so fuel equal
to the input length keeps the fuel-exhaustion branch unreachable. -/
def cleanLoop (rooted : Bool) : Nat → List Char → List Char → Nat → List Char
  | 0, _, out, _ => out
  | _ + 1, [], out, _ => out
  | fuel + 1, c :: rest, out, dotdot =>
    if c = '/' then
      cleanLoop rooted fuel rest out dotdot
    else if c = '.' ∧ (rest = [] ∨ rest.head? = some '/') then
      cleanLoop rooted fuel rest out dotdot
    else if c = '.' ∧ rest.head? = some '.' ∧
        (rest.tail = [] ∨ rest.tail.head? = some '/') then
      if out.length > dotdot then
        cleanLoop rooted fuel rest.tail (backtrack out dotdot) dotdot
      else if rooted = false then
        let out2 := (if out.length > 0 then out ++ ['/'] else out) ++ ['.', '.']
        cleanLoop rooted fuel rest.tail out2 out2.length
      else
        cleanLoop rooted fuel rest.tail out dotdot
    else
      let out2 :=
        if (rooted = true ∧ out.length ≠ 1) ∨ (rooted = false ∧ out.length ≠ 0) then
          out ++ ['/']
        else out
      cleanLoop rooted fuel (rest.dropWhile (· ≠ '/')) (out2 ++ c :: rest.takeWhile (· ≠ '/'))
        dotdot

/-- filepath.Clean for Unix paths. -/
def goClean (path : String) : String :=
  if path = "" then "."
  else
    let cs := path.data
    let out :=
      if cs.head? = some '/' then cleanLoop true cs.length cs.tail ['/'] 1
      else cleanLoop false cs.length cs [] 0
    if out.length = 0 then "." else String.mk out

/-- filepath.Join restricted to the two-element form the source uses. -/
def goFilepathJoin (a b : String) : String :=
  if a ≠ "" then goClean (a ++ "/" ++ b)
  else if b ≠ "" then goClean b
  else ""

/-- filepath.Dir (Unix: the volume name is empty). -/
def goDir (path : String) : String :=
  goClean (String.mk ((path.data.reverse.dropWhile (· ≠ '/')).reverse))

/-- filepath.IsAbs on Unix. -/
def goIsAbs (path : String) : Bool := goHasPrefix path "/"

/-- expandPath from the source. home models the os.UserHomeDir result
(none = lookup error). Absolute paths are returned unchanged; tilde paths
are expanded against home, dropping exactly one leading separator from the
remainder; anything else is joined onto baseDir. -/
def expandPath (path baseDir : String) (home : Option String) : String :=
  if goIsAbs path then path
  else if goHasPrefix path "/" then path
  else if goHasPrefix path "~" then
    match home with
    | some h =>
      let remainder := path.data.tail
      let remainder := if remainder.head? = some '/' then remainder.tail else remainder
      goFilepathJoin h (String.mk remainder)
    | none => path
  else goFilepathJoin baseDir path

/-! ### Version-compatibility engine (compareVersions, VersionSupports) -/

/-- strconv.Atoi with the error discarded, as the source does: the caller
keeps the returned value, which is 0 on a syntax error and the int64 clamp
on a range error. -/
def goAtoi (s : String) : Int :=
  match s.data with
  | [] => 0
  | c :: rest =>
    let core := if c = '-' ∨ c = '+' then rest else c :: rest
    if core.isEmpty || !core.all Char.isDigit then 0
    else
      let n : Nat := core.foldl (fun acc d => acc * 10 + (d.toNat - 48)) 0
      let signed : Int := if c = '-' then -(n : Int) else (n : Int)
      if signed > (2 ^ 63 - 1 : Int) then 2 ^ 63 - 1
      else if signed < -(2 ^ 63 : Int) then -(2 ^ 63)
      else signed

/-- strings.SplitN(v, "-", 2): the core before the first dash, and the
pre-release suffix after it when a dash is present. -/
def splitDash (s : String) : String × Option String :=
  match s.data.dropWhile (· ≠ '-') with
  | [] => (String.mk (s.data.takeWhile (· ≠ '-')), none)
  | _ :: t => (String.mk (s.data.takeWhile (· ≠ '-')), some (String.mk t))

/-- strings.TrimPrefix(v, "v") (the prefix is a single character). -/
def trimV (v : String) : String :=
  if goHasPrefix v "v" then String.mk v.data.tail else v

/-- Numeric component i of the dotted version core; components beyond the
split are zero, as in the source's loop. -/
def partAt (parts : List String) (i : Nat) : Int :=
  match parts[i]? with
  | some s => goAtoi s
  | none => 0

/-- One iteration of the source's numeric comparison loop. -/
def cmpIntStep (p1 p2 : Int) : Int :=
  if p1 < p2 then -1 else if p2 < p1 then 1 else 0

/-- The pre-release comparison section after the numeric loop. -/
def cmpPre : Option String → Option String → Int
  | none, none => 0
  | none, some _ => 1
  | some _, none => -1
  | some a, some b => if goStrLt a b then -1 else if goStrLt b a then 1 else 0

/-- Body of compareVersions after splitting both versions: the three-step
numeric loop (early return on the first nonzero step) and then the
pre-release section. -/
def cvParts (ps1 ps2 : List String) (pre1 pre2 : Option String) : Int :=
  if cmpIntStep (partAt ps1 0) (partAt ps2 0) ≠ 0 then cmpIntStep (partAt ps1 0) (partAt ps2 0)
  else if cmpIntStep (partAt ps1 1) (partAt ps2 1) ≠ 0 then
    cmpIntStep (partAt ps1 1) (partAt ps2 1)
  else if cmpIntStep (partAt ps1 2) (partAt ps2 2) ≠ 0 then
    cmpIntStep (partAt ps1 2) (partAt ps2 2)
  else cmpPre pre1 pre2

/-- compareVersions from the source: -1 if v1 < v2, 0 if equal, 1 if v1 > v2. -/
def compareVersions (v1 v2 : String) : Int :=
  cvParts (goSplitChar (splitDash (trimV v1)).1 '.') (goSplitChar (splitDash (trimV v2)).1 '.')
    (splitDash (trimV v1)).2 (splitDash (trimV v2)).2

/-- The fixed feature → minimum-version table. -/
def FeatureSupport : List (String × String) :=
  [("command_aliases", "v2.1.0"), ("optional_imports", "v2.2.0"),
   ("multiple_env_files", "v2.5.0"), ("schema_validation", "v2.6.0")]

/-- Go map read FeatureSupport[f] (zero value when the key is absent). -/
def featureSupportGet (f : String) : String := (FeatureSupport.lookup f).getD ""

/-- VersionSupports from the source. -/
def VersionSupports (currentVersion feature : String) : Bool :=
  match FeatureSupport.lookup feature with
  | none => true
  | some requiredVersion =>
    if currentVersion = "development" ∨ currentVersion = "" then true
    else decide (compareVersions currentVersion requiredVersion ≥ 0)

/-- GetAhoyVersion from the source, over the two process-wide globals. -/
def GetAhoyVersion (simulateVersion version : String) : String :=
  if simulateVersion ≠ "" then simulateVersion
  else if version = "" then "development"
  else version

/-! ### Data model: Config, Command and the process environment -/

/-- Command from the source (one named action in an ahoy.yml file). The
imports field distinguishes Go's nil slice (none) from a present, possibly
empty list (some); the schema checks in getCommands depend on that. -/
structure Command where
  description : String := ""
  usage : String := ""
  cmd : String := ""
  env : List String := []
  hide : Bool := false
  optional : Bool := false
  imports : Option (List String) := none
  aliases : List String := []
deriving Repr, DecidableEq

/-- Config from the source (one parsed ahoy.yml file). commands models the
Go map as an association list: Go map iteration order is arbitrary, and the
source either sorts the keys before use or produces order-insensitive
results, so the list order carries no commitment. -/
structure Config where
  usage : String := ""
  ahoyapi : String := ""
  commands : List (String × Command) := []
  entrypoint : Option (List String) := none
  env : List String := []
deriving Repr, DecidableEq

/-- The process environment the source reads implicitly: the filesystem
(path to raw file content; directories are not modelled), the external YAML
unmarshaller as an oracle from file content to a parse result, the
os.UserHomeDir result, and the process-wide globals AhoyConf.srcDir,
sourcefile, simulateVersion and version. -/
structure GoEnv where
  fs : String → Option String
  yamlParse : String → Except String Config
  home : Option String
  srcDir : String
  sourcefile : String
  simulateVersion : String
  version : String

/-- The GetAhoyVersion() value in an environment. -/
def ahoyVersion (env : GoEnv) : String := GetAhoyVersion env.simulateVersion env.version

/-- fileExists from the source (a stat that succeeds only on files; the
model's filesystem holds only files). -/
def fileExists (env : GoEnv) (filename : String) : Bool := (env.fs filename).isSome

/-- getConfig from the source: read the file, unmarshal it, require
ahoyapi v2, and inject the default entrypoint when none was declared.
The version-mismatch message interpolates the global sourcefile (the -f
flag value), exactly as the source does. -/
def getConfig (env : GoEnv) (file : String) : Except String Config :=
  match env.fs file with
  | none =>
    .error "an ahoy config file couldn't be found in your path. You can create an example one by using 'ahoy init'"
  | some content =>
    match env.yamlParse content with
    | .error e => .error e
    | .ok config =>
      if config.ahoyapi ≠ "v2" then
        .error ("Ahoy only supports API version 'v2', but '" ++ config.ahoyapi ++ "' given in "
          ++ env.sourcefile)
      else if config.entrypoint = none then
        .ok { config with entrypoint := some ["bash", "-c", "\x7b\x7bcmd\x7d\x7d", "\x7b\x7bname\x7d\x7d"] }
      else .ok config

/-- getEnvironmentVars from the source: nil for a missing file, otherwise
the file's lines split on newlines, each trimmed, skipping lines that are
empty or start with a comment marker after trimming. -/
def getEnvironmentVars (env : GoEnv) (envFile : String) : List String :=
  if fileExists env envFile = false then []
  else
    match env.fs envFile with
    | none => []
    | some content =>
      (goSplitChar content '\n').foldl
        (fun envVars line =>
          let line := goTrimSpace line
          if line = "" ∨ goHasPrefix line "#" then envVars
          else envVars ++ [line]) []

/-! ### Validation engine (ValidateConfig and helpers) -/

/-- ValidationIssue from the source; absent fields keep Go's zero value. -/
structure ValidationIssue where
  type : String := ""
  severity : String := ""
  message : String := ""
  file : String := ""
  field : String := ""
  feature : String := ""
  requiredVersion : String := ""
  currentVersion : String := ""
  suggestion : String := ""
deriving Repr, DecidableEq

/-- ValidationResult from the source. -/
structure ValidationResult where
  Issues : List ValidationIssue
  HasError : Bool
deriving Repr, DecidableEq

/-- validateFeatures from the source. -/
def validateFeatures (config : Config) (configFile currentVersion : String) :
    List ValidationIssue :=
  if config.env.length > 1 ∧ VersionSupports currentVersion "multiple_env_files" = false then
    [{ type := "version_mismatch", severity := "warning",
       message := "Multiple environment files detected. This feature requires proper support.",
       file := configFile, field := "env", feature := "multiple_env_files",
       requiredVersion := featureSupportGet "multiple_env_files",
       currentVersion := currentVersion,
       suggestion := "Multiple env files are partially supported. Upgrade for full compatibility." }]
  else []

/-- validateImport from the source. -/
def validateImport (env : GoEnv) (cmdName importPath : String) (optional : Bool)
    (configFile currentVersion : String) : List ValidationIssue :=
  let configDir := goDir configFile
  let fullPath := expandPath importPath configDir env.home
  if fileExists env fullPath then []
  else if optional then
    if VersionSupports currentVersion "optional_imports" = false then
      [{ type := "version_mismatch", severity := "error",
         message := "Import file '" ++ importPath ++ "' not found for command '" ++ cmdName
           ++ "'. This file is marked as optional but your Ahoy version doesn't support optional imports.",
         file := configFile, field := "commands." ++ cmdName ++ ".imports",
         feature := "optional_imports",
         requiredVersion := featureSupportGet "optional_imports",
         currentVersion := currentVersion,
         suggestion := "Either upgrade Ahoy to " ++ featureSupportGet "optional_imports"
           ++ "+, create the missing file '" ++ importPath ++ "', or remove 'optional: true'" }]
    else
      [{ type := "missing_file", severity := "info",
         message := "Optional import file '" ++ importPath ++ "' not found for command '"
           ++ cmdName ++ "' (this is OK)",
         file := configFile, field := "commands." ++ cmdName ++ ".imports" }]
  else
    [{ type := "missing_file", severity := "warning",
       message := "Import file '" ++ importPath ++ "' not found for command '" ++ cmdName
         ++ "' (will be skipped)",
       file := configFile, field := "commands." ++ cmdName ++ ".imports",
       suggestion := "Create the file '" ++ importPath
         ++ "' or mark the import as 'optional: true'" }]

/-- validateEnvFile from the source. -/
def validateEnvFile (env : GoEnv) (cmdName envPath configFile : String) :
    List ValidationIssue :=
  let configDir := goDir configFile
  let fullPath := expandPath envPath configDir env.home
  if fileExists env fullPath then []
  else
    [{ type := "missing_file", severity := "warning",
       message := "Environment file '" ++ envPath ++ "' not found for command '" ++ cmdName
         ++ "' (will be ignored)",
       file := configFile, field := "commands." ++ cmdName ++ ".env",
       suggestion := "Create the file '" ++ envPath
         ++ "' or remove it from the configuration" }]

/-- validateCommand from the source. -/
def validateCommand (env : GoEnv) (cmdName : String) (cmd : Command)
    (configFile currentVersion : String) : List ValidationIssue :=
  (if cmd.optional = true ∧ VersionSupports currentVersion "optional_imports" = false then
    [{ type := "version_mismatch", severity := "error",
       message := "Command '" ++ cmdName ++ "' uses 'optional: true' which requires Ahoy "
         ++ featureSupportGet "optional_imports" ++ " or later",
       file := configFile, field := "commands." ++ cmdName ++ ".optional",
       feature := "optional_imports",
       requiredVersion := featureSupportGet "optional_imports",
       currentVersion := currentVersion,
       suggestion := "Upgrade Ahoy or remove 'optional: true' from the command" }]
  else [])
  ++ (if cmd.aliases.length > 0 ∧ VersionSupports currentVersion "command_aliases" = false then
    [{ type := "version_mismatch", severity := "warning",
       message := "Command '" ++ cmdName ++ "' uses aliases which require Ahoy "
         ++ featureSupportGet "command_aliases" ++ " or later",
       file := configFile, field := "commands." ++ cmdName ++ ".aliases",
       feature := "command_aliases",
       requiredVersion := featureSupportGet "command_aliases",
       currentVersion := currentVersion,
       suggestion := "Upgrade Ahoy for full alias support" }]
  else [])
  ++ ((cmd.imports.getD []).foldl
      (fun issues importPath =>
        issues ++ validateImport env cmdName importPath cmd.optional configFile currentVersion)
      [])
  ++ (cmd.env.foldl
      (fun issues envPath => issues ++ validateEnvFile env cmdName envPath configFile) [])

/-- The ahoyapi version-mismatch issue ValidateConfig raises. -/
def apiIssue (configFile ahoyapi : String) : ValidationIssue :=
  { type := "version_mismatch", severity := "error",
    message := "Unsupported API version '" ++ ahoyapi ++ "'. Only 'v2' is currently supported.",
    file := configFile, field := "ahoyapi" }

/-- The per-command validation pass of ValidateConfig (a Go map range; the
model iterates the association list, and every property proved about it is
insensitive to that order). -/
def allCommandIssues (env : GoEnv) (config : Config) (configFile currentVersion : String) :
    List ValidationIssue :=
  config.commands.foldl
    (fun issues nc => issues ++ validateCommand env nc.1 nc.2 configFile currentVersion) []

/-- ValidateConfig from the source: the ahoyapi check (which both appends an
error issue and sets HasError), the feature scan, the per-command scan, and
the final pass that sets HasError when any issue has error severity. -/
def ValidateConfig (env : GoEnv) (config : Config) (configFile : String) : ValidationResult :=
  let currentVersion := ahoyVersion env
  let apiPart : List ValidationIssue × Bool :=
    if config.ahoyapi ≠ "v2" then ([apiIssue configFile config.ahoyapi], true) else ([], false)
  let issues := apiPart.1 ++ validateFeatures config configFile currentVersion
    ++ allCommandIssues env config configFile currentVersion
  { Issues := issues,
    HasError := apiPart.2 || issues.any (fun i => i.severity == "error") }

/-! ### Command-tree builder (getCommands, getSubCommands) -/

/-- The data captured by the Run closure the source installs on a leaf
command: the command string, its env-file references, the command name, the
entrypoint template and the global env lines (placeholder substitution and
process spawning happen at run time, outside this model). -/
structure RunSpec where
  cmdString : String
  cmdEnv : List String
  cmdName : String
  entrypoint : List String
  globalEnvVars : List String
deriving Repr, DecidableEq

/-- The cobra.Command fields the source sets. -/
inductive CobraCmd where
  | mk (use : String) (aliases : List String) (hidden : Bool) (short : String)
      (long : String) (run : Option RunSpec) (subcommands : List CobraCmd)

def CobraCmd.use : CobraCmd → String
  | .mk u _ _ _ _ _ _ => u

def CobraCmd.aliases : CobraCmd → List String
  | .mk _ a _ _ _ _ _ => a

def CobraCmd.hidden : CobraCmd → Bool
  | .mk _ _ h _ _ _ _ => h

def CobraCmd.short : CobraCmd → String
  | .mk _ _ _ s _ _ _ => s

def CobraCmd.long : CobraCmd → String
  | .mk _ _ _ _ l _ _ => l

def CobraCmd.run : CobraCmd → Option RunSpec
  | .mk _ _ _ _ _ r _ => r

def CobraCmd.subcommands : CobraCmd → List CobraCmd
  | .mk _ _ _ _ _ _ s => s

/-- A fatal logger call (which exits the process) or fuel exhaustion of
the bounded recursion (Go would loop forever on a cyclic import graph). -/
inductive BuildErr where
  | fatal (msg : String)
  | outOfFuel

/-- Result of a tree-building call: a fatal abort, or the built nodes
together with the non-fatal log entries emitted along the way. -/
abbrev BuildRes := Except BuildErr (List CobraCmd × List String)

/-- Go map assignment commands[k] = v on the association-list model:
replace in place, or append a fresh key. -/
def mapAssign (tbl : List (String × CobraCmd)) (k : String) (v : CobraCmd) :
    List (String × CobraCmd) :=
  match tbl with
  | [] => [(k, v)]
  | (k0, v0) :: rest => if k0 = k then (k, v) :: rest else (k0, v0) :: mapAssign rest k v

/-- The merge loop body of getSubCommands: assign every included command
into the table, keyed by its name (later assignments overwrite). -/
def insertAll (tbl : List (String × CobraCmd)) (cmds : List CobraCmd) :
    List (String × CobraCmd) :=
  cmds.foldl (fun t c => mapAssign t c.use c) tbl

/-- Outcome of one iteration of getSubCommands' include loop. -/
inductive IncludeLoad where
  | skipped
  | loadFailed (logMsg : String)
  | loaded (cmds : List CobraCmd) (logs : List String)

/-- One iteration of getSubCommands' include loop: skip empty references,
expand the path, skip references whose stat fails, log and skip references
whose config fails to load, otherwise build the included file's commands
through the recursive getCommands (passed as rec). -/
def loadInclude (rec : GoEnv → Config → BuildRes) (env : GoEnv) (inc : String) :
    Except BuildErr IncludeLoad :=
  if inc.data.length = 0 then .ok .skipped
  else
    let full := expandPath inc env.srcDir env.home
    match env.fs full with
    | none => .ok .skipped
    | some _ =>
      match getConfig env full with
      | .error e =>
        .ok (.loadFailed ("Could not load imported config '" ++ full ++ "': " ++ e))
      | .ok config =>
        match rec env config with
        | .error e => .error e
        | .ok (cmds, logs) => .ok (.loaded cmds logs)

/-- The include loop of getSubCommands, threading the name→command table
and the accumulated log. -/
def resolveIncludes (rec : GoEnv → Config → BuildRes) (env : GoEnv) :
    List String → List (String × CobraCmd) → List String →
    Except BuildErr (List (String × CobraCmd) × List String)
  | [], tbl, logs => .ok (tbl, logs)
  | inc :: rest, tbl, logs =>
    match loadInclude rec env inc with
    | .error e => .error e
    | .ok .skipped => resolveIncludes rec env rest tbl logs
    | .ok (.loadFailed m) => resolveIncludes rec env rest tbl (logs ++ [m])
    | .ok (.loaded cmds ls) => resolveIncludes rec env rest (insertAll tbl cmds) (logs ++ ls)

/-- getSubCommands from the source, over the recursive getCommands passed
as rec: run the include loop, then emit the merged commands sorted by name. -/
def getSubCommandsAux (rec : GoEnv → Config → BuildRes) (env : GoEnv)
    (includes : List String) : BuildRes :=
  if includes.length = 0 then .ok ([], [])
  else
    match resolveIncludes rec env includes [] [] with
    | .error e => .error e
    | .ok (tbl, logs) =>
      let names := sortStrings (tbl.map Prod.fst)
      .ok (names.filterMap (fun n => tbl.lookup n), logs)

/-- The import paths of a command whose expanded path does not exist,
listed by getCommands in its no-commands-found fatal message. -/
def missingImportFiles (env : GoEnv) (imports : List String) : List String :=
  imports.foldl
    (fun missingFiles importPath =>
      if fileExists env (expandPath importPath env.srcDir env.home) = false then
        missingFiles ++ [importPath]
      else missingFiles) []

/-- Fatal message for a command with neither cmd nor imports. -/
def neitherMsg (name : String) : String :=
  "Command [" ++ name ++ "] has neither 'cmd' or 'imports' set. Check your yaml file."

/-- Fatal message for a command with both cmd and imports. -/
def bothMsg (name : String) : String :=
  "Command [" ++ name ++ "] has both 'cmd' and 'imports' set, but only one is allowed. Check your yaml file."

/-- Fatal message for a command whose imports list is present but empty. -/
def emptyImportsMsg (name : String) : String :=
  "Command [" ++ name ++ "] has 'imports' set, but it is empty. Check your yaml file."

/-- Fatal message for a required import-bearing command whose import
resolution produced no commands, enumerating the missing import files. -/
def noCommandsMsg (env : GoEnv) (name : String) (imports : List String) : String :=
  if (missingImportFiles env imports).length > 0 then
    "Command [" ++ name ++ "] has 'imports' set, but no commands were found."
      ++ "\n\nMissing import files: " ++ goStringsJoin (missingImportFiles env imports) ", "
      ++ "\n\nSolutions:" ++ "\n1. Create the missing files"
      ++ "\n2. Mark imports as optional with 'optional: true'"
      ++ (if VersionSupports (ahoyVersion env) "optional_imports" = false then
            "\n3. Upgrade Ahoy to v" ++ featureSupportGet "optional_imports"
              ++ "+ for optional import support"
          else "")
      ++ "\n\nFor more help, run: ahoy config validate"
  else
    "Command [" ++ name ++ "] has 'imports' set, but no commands were found."

/-- Fatal message for an optional import-bearing command under an engine
without optional_imports support. -/
def optionalUnsupportedMsg (env : GoEnv) (name : String) : String :=
  "Command [" ++ name ++ "] uses 'optional: true' but this Ahoy version (" ++ ahoyVersion env
    ++ ") doesn't support optional imports."
    ++ "\n\nThis feature requires Ahoy " ++ featureSupportGet "optional_imports" ++ " or later."
    ++ "\n\nSolutions:" ++ "\n1. Upgrade Ahoy to the latest version"
    ++ "\n2. Remove 'optional: true' and create the missing import files"
    ++ "\n\nFor more help, run: ahoy config validate"

/-- The loop body of getCommands for one named command: the three schema
checks, the cobra command construction, and the imports fork. Returns none
for the continue case (optional import with no commands, feature
supported), some node otherwise, plus the log entries emitted. -/
def buildOne (rec : GoEnv → Config → BuildRes) (env : GoEnv) (entrypoint : List String)
    (envVars : List String) (name : String) (cmd : Command) :
    Except BuildErr (Option CobraCmd × List String) :=
  if cmd.cmd = "" ∧ cmd.imports = none then .error (.fatal (neitherMsg name))
  else if cmd.cmd ≠ "" ∧ cmd.imports ≠ none then .error (.fatal (bothMsg name))
  else if cmd.imports = some [] then .error (.fatal (emptyImportsMsg name))
  else
    let run : Option RunSpec :=
      if cmd.cmd ≠ "" then
        some { cmdString := cmd.cmd, cmdEnv := cmd.env, cmdName := name,
               entrypoint := entrypoint, globalEnvVars := envVars }
      else none
    let newCmd : CobraCmd := .mk name cmd.aliases cmd.hide cmd.usage cmd.description run []
    match cmd.imports with
    | none => .ok (some newCmd, [])
    | some imports =>
      match getSubCommandsAux rec env imports with
      | .error e => .error e
      | .ok (subCommands, logs) =>
        if subCommands.length = 0 then
          if cmd.optional = false then
            .error (.fatal (noCommandsMsg env name imports))
          else if VersionSupports (ahoyVersion env) "optional_imports" = false then
            .error (.fatal (optionalUnsupportedMsg env name))
          else .ok (none, logs)
        else
          .ok (some (.mk name cmd.aliases cmd.hide cmd.usage cmd.description run subCommands),
            logs)

/-- The per-key loop of getCommands over the sorted key list. -/
def buildLoop (rec : GoEnv → Config → BuildRes) (env : GoEnv) (config : Config)
    (entrypoint : List String) (envVars : List String) :
    List String → List CobraCmd → List String → BuildRes
  | [], exportCmds, logs => .ok (exportCmds, logs)
  | name :: rest, exportCmds, logs =>
    match config.commands.lookup name with
    | none => buildLoop rec env config entrypoint envVars rest exportCmds logs
    | some cmd =>
      match buildOne rec env entrypoint envVars name cmd with
      | .error e => .error e
      | .ok (oc, ls) =>
        buildLoop rec env config entrypoint envVars rest (exportCmds ++ oc.toList) (logs ++ ls)

/-- getCommands from the source, over the recursive getCommands passed as
rec (used by getSubCommands on included files): gather the global env
lines, sort the command names, and run the per-command loop. -/
def getCommandsCore (rec : GoEnv → Config → BuildRes) (env : GoEnv) (config : Config) :
    BuildRes :=
  let envVars := config.env.foldl
    (fun envVars envPath => envVars ++ getEnvironmentVars env (expandPath envPath env.srcDir env.home))
    []
  buildLoop rec env config (config.entrypoint.getD []) envVars
    (sortStrings (config.commands.map Prod.fst)) [] []

/-- Fuelled tie of the getCommands/getSubCommands recursion. -/
def getCommandsF : Nat → GoEnv → Config → BuildRes
  | 0, _, _ => .error .outOfFuel
  | fuel + 1, env, config => getCommandsCore (getCommandsF fuel) env config

/-- getCommands at a given recursion fuel. -/
def getCommands (fuel : Nat) (env : GoEnv) (config : Config) : BuildRes :=
  getCommandsF fuel env config

/-- getSubCommands at a given recursion fuel (the fuel each enclosing
getCommands call hands down). -/
def getSubCommands (fuel : Nat) (env : GoEnv) (includes : List String) : BuildRes :=
  getSubCommandsAux (getCommandsF fuel) env includes

/-- Well-formedness of the merge table: every entry is keyed by its
command's name, and keys are duplicate-free (as in a Go map). -/
def TblWF (tbl : List (String × CobraCmd)) : Prop :=
  (∀ p ∈ tbl, p.2.use = p.1) ∧ (tbl.map Prod.fst).Nodup

/-- The log entry getSubCommands emits for the unparsable bad.yml of
envMulti (defined below). -/
def c6msg : String := "Could not load imported config '/base/bad.yml': yaml: boom"

/-! ### Concrete environments and configurations used by witnesses -/

/-- An environment whose filesystem is empty. -/
def envEmptyFs : GoEnv :=
  { fs := fun _ => none, yamlParse := fun _ => .error "yaml: no such content",
    home := some "/home/u", srcDir := "/base", sourcefile := "",
    simulateVersion := "", version := "" }

/-- An environment simulating the old engine version v2.1.0 (no
optional_imports support) with an empty filesystem. -/
def envOldVersion : GoEnv := { envEmptyFs with simulateVersion := "v2.1.0" }

/-- A one-command config whose command name is x (used for import merging). -/
def cfgX (u : String) : Config :=
  { ahoyapi := "v2", commands := [("x", { usage := u, cmd := "echo x" })] }

/-- A one-command config whose command name is y. -/
def cfgY : Config :=
  { ahoyapi := "v2", commands := [("y", { usage := "use y", cmd := "echo y" })] }

/-- An environment with importable config files a.yml, b.yml (both defining
command x), c.yml (defining y) and an unparsable bad.yml. -/
def envMulti : GoEnv :=
  { fs := fun p =>
      if p = "/base/a.yml" then some "A"
      else if p = "/base/b.yml" then some "B"
      else if p = "/base/c.yml" then some "C"
      else if p = "/base/bad.yml" then some "BAD" else none,
    yamlParse := fun c =>
      if c = "A" then .ok (cfgX "use a")
      else if c = "B" then .ok (cfgX "use b")
      else if c = "C" then .ok cfgY
      else .error "yaml: boom",
    home := some "/home/u", srcDir := "/base", sourcefile := "",
    simulateVersion := "", version := "" }

/-- The default entrypoint getConfig injects. -/
def defaultEntrypoint : List String := ["bash", "-c", "\x7b\x7bcmd\x7d\x7d", "\x7b\x7bname\x7d\x7d"]

/-- The node b.yml's config builds for command x. -/
def nodeXB : CobraCmd :=
  .mk "x" [] false "use b" ""
    (some { cmdString := "echo x", cmdEnv := [], cmdName := "x",
            entrypoint := defaultEntrypoint, globalEnvVars := [] }) []

/-- The node c.yml's config builds for command y. -/
def nodeY : CobraCmd :=
  .mk "y" [] false "use y" ""
    (some { cmdString := "echo y", cmdEnv := [], cmdName := "y",
            entrypoint := defaultEntrypoint, globalEnvVars := [] }) []

/-- A command with imports pointing at a single missing file. -/
def cmdGroup : Command := { cmd := "", imports := some ["missing.yml"] }

/-- A config holding only cmdGroup under the name group. -/
def cfgGroup : Config := { ahoyapi := "v2", commands := [("group", cmdGroup)] }

/-- cmdGroup marked optional. -/
def cmdGroupOpt : Command := { cmdGroup with optional := true }

/-- A config holding only cmdGroupOpt under the name group. -/
def cfgGroupOpt : Config := { ahoyapi := "v2", commands := [("group", cmdGroupOpt)] }

/-- A command violating the schema: neither cmd nor imports set. -/
def cmdNeither : Command := {}

/-- A config holding only cmdNeither. -/
def cfgNeither : Config := { ahoyapi := "v2", commands := [("bad", cmdNeither)] }

/-- A config with a bad ahoyapi tag and an optional command (two
version_mismatch/error issues under an old engine). -/
def c4Cfg : Config :=
  { ahoyapi := "v1", commands := [("deploy", { cmd := "echo hi", optional := true })] }

/-- A config with only a bad ahoyapi tag. -/
def c4wCfg : Config := { ahoyapi := "v3" }

/-- An environment with one env file containing a padded line, an indented
comment and a plain line. -/
def c9Env : GoEnv :=
  { envEmptyFs with
    fs := fun p => if p = "/base/.env" then some " A=1\n  #note\nB=2" else none }

/-! ### Order facts about charsLt -/

theorem charsLt_irrefl (as : List Char) : charsLt as as = false := by
  induction as with
  | nil => rfl
  | cons a t ih => simp [charsLt, ih, lt_irrefl]

theorem charsLt_asymm (as bs : List Char) (h : charsLt as bs = true) :
    charsLt bs as = false := by
  induction as generalizing bs with
  | nil =>
    cases bs with
    | nil => rfl
    | cons b t => rfl
  | cons a s ih =>
    cases bs with
    | nil => simp [charsLt] at h
    | cons b t =>
      rcases lt_trichotomy a b with hab | hab | hab
      · simp [charsLt, hab, asymm hab]
      · subst hab
        simp only [charsLt, lt_irrefl, if_false] at h ⊢
        exact ih t h
      · simp [charsLt, hab, asymm hab] at h

theorem charsLt_conn (as bs : List Char) (h1 : charsLt as bs = false)
    (h2 : charsLt bs as = false) : as = bs := by
  induction as generalizing bs with
  | nil =>
    cases bs with
    | nil => rfl
    | cons b t => simp [charsLt] at h1
  | cons a s ih =>
    cases bs with
    | nil => simp [charsLt] at h2
    | cons b t =>
      rcases lt_trichotomy a b with hab | hab | hab
      · simp [charsLt, hab] at h1
      · subst hab
        simp only [charsLt, lt_irrefl, if_false] at h1 h2
        exact congrArg (a :: ·) (ih t h1 h2)
      · simp [charsLt, hab, asymm hab] at h2

theorem charsLt_trans (as bs cs : List Char) (h1 : charsLt as bs = true)
    (h2 : charsLt bs cs = true) : charsLt as cs = true := by
  induction as generalizing bs cs with
  | nil =>
    cases cs with
    | nil =>
      cases bs with
      | nil => exact h1
      | cons b t => simp [charsLt] at h2
    | cons c t => rfl
  | cons a s ih =>
    cases bs with
    | nil => simp [charsLt] at h1
    | cons b t =>
      cases cs with
      | nil => simp [charsLt] at h2
      | cons c u =>
        rcases lt_trichotomy a b with hab | hab | hab
        · rcases lt_trichotomy b c with hbc | hbc | hbc
          · have hac : a < c := lt_trans hab hbc
            simp [charsLt, hac]
          · subst hbc; simp [charsLt, hab]
          · simp [charsLt, hbc, asymm hbc] at h2
        · subst hab
          simp only [charsLt, lt_irrefl, if_false] at h1
          rcases lt_trichotomy a c with hac | hac | hac
          · simp [charsLt, hac]
          · subst hac
            simp only [charsLt, lt_irrefl, if_false] at h2 ⊢
            exact ih t u h1 h2
          · simp [charsLt, hac, asymm hac] at h2
        · simp [charsLt, hab, asymm hab] at h1

theorem string_data_inj {a b : String} (h : a.data = b.data) : a = b := by
  cases a; cases b; exact congrArg String.mk h

theorem goStrLt_asymm (a b : String) (h : goStrLt a b = true) : goStrLt b a = false :=
  charsLt_asymm _ _ h

theorem goStrLt_irrefl (a : String) : goStrLt a a = false := charsLt_irrefl _

theorem goStrLe_total (a b : String) : goStrLe a b = true ∨ goStrLe b a = true := by
  cases hba : charsLt b.data a.data with
  | false => exact Or.inl (by simp [goStrLe, goStrLt, hba])
  | true => exact Or.inr (by simp [goStrLe, goStrLt, charsLt_asymm _ _ hba])

theorem goStrLe_trans (a b c : String) (h1 : goStrLe a b = true) (h2 : goStrLe b c = true) :
    goStrLe a c = true := by
  simp only [goStrLe, goStrLt, Bool.not_eq_true'] at h1 h2 ⊢
  cases hca : charsLt c.data a.data with
  | false => rfl
  | true =>
    exfalso
    cases hbc : charsLt b.data c.data with
    | true =>
      have hba := charsLt_trans _ _ _ hbc hca
      rw [h1] at hba; cases hba
    | false =>
      have hbceq : b.data = c.data := charsLt_conn _ _ hbc h2
      rw [← hbceq] at hca
      rw [h1] at hca; cases hca

theorem goStrLe_ne_lt (a b : String) (h : goStrLe a b = true) (hne : a ≠ b) :
    goStrLt a b = true := by
  simp only [goStrLe, goStrLt, Bool.not_eq_true'] at h ⊢
  cases hab : charsLt a.data b.data with
  | true => rfl
  | false => exact absurd (string_data_inj (charsLt_conn _ _ hab h)) hne

theorem string_mk_data (s : String) : String.mk s.data = s := by
  cases s; rfl

/-! ### Sorting lemmas for sortStrings -/

theorem orderedInsert_perm (x : String) (l : List String) :
    List.Perm (orderedInsert x l) (x :: l) := by
  induction l with
  | nil => exact List.Perm.refl _
  | cons y ys ih =>
    by_cases h : goStrLe x y = true
    · simp [orderedInsert, h]
    · simp only [orderedInsert, h, if_false]
      exact (ih.cons y).trans (List.Perm.swap x y ys)

theorem sortStrings_perm (l : List String) : List.Perm (sortStrings l) l := by
  induction l with
  | nil => exact List.Perm.refl _
  | cons x xs ih =>
    exact (orderedInsert_perm x (sortStrings xs)).trans (ih.cons x)

theorem sortStrings_mem (a : String) (l : List String) :
    a ∈ sortStrings l ↔ a ∈ l :=
  (sortStrings_perm l).mem_iff

theorem sortStrings_nodup (l : List String) (h : l.Nodup) : (sortStrings l).Nodup :=
  ((sortStrings_perm l).nodup_iff).mpr h

theorem orderedInsert_pairwise (x : String) (l : List String)
    (h : l.Pairwise (fun a b => goStrLe a b = true)) :
    (orderedInsert x l).Pairwise (fun a b => goStrLe a b = true) := by
  induction l with
  | nil => simp [orderedInsert]
  | cons y ys ih =>
    rcases List.pairwise_cons.mp h with ⟨hy, hys⟩
    by_cases hxy : goStrLe x y = true
    · simp only [orderedInsert, hxy, if_true]
      refine List.pairwise_cons.mpr ⟨?_, h⟩
      intro b hb
      rcases List.mem_cons.mp hb with hb | hb
      · exact hb ▸ hxy
      · exact goStrLe_trans _ _ _ hxy (hy b hb)
    · simp only [orderedInsert, hxy, if_false]
      refine List.pairwise_cons.mpr ⟨?_, ih hys⟩
      intro b hb
      have hb' := (orderedInsert_perm x ys).mem_iff.mp hb
      rcases List.mem_cons.mp hb' with hb' | hb'
      · subst hb'
        rcases goStrLe_total b y with htot | htot
        · exact absurd htot hxy
        · exact htot
      · exact hy b hb'

theorem sortStrings_pairwise (l : List String) :
    (sortStrings l).Pairwise (fun a b => goStrLe a b = true) := by
  induction l with
  | nil => simp [sortStrings]
  | cons x xs ih => exact orderedInsert_pairwise x _ ih

theorem sortStrings_pairwise_lt (l : List String) (h : l.Nodup) :
    (sortStrings l).Pairwise (fun a b => goStrLt a b = true) := by
  have hle := sortStrings_pairwise l
  have hne : (sortStrings l).Pairwise (· ≠ ·) := sortStrings_nodup l h
  exact (hle.and hne).imp (fun hab => goStrLe_ne_lt _ _ hab.1 hab.2)

/-! ### Substring-containment lemmas -/

theorem strContains_refl (p : String) : strContains p p :=
  ⟨[], [], by simp⟩

theorem strContains_appL (a b p : String) (h : strContains b p) :
    strContains (a ++ b) p := by
  rcases h with ⟨x, y, hxy⟩
  exact ⟨a.data ++ x, y, by simp [hxy]⟩

theorem strContains_appR (a b p : String) (h : strContains a p) :
    strContains (a ++ b) p := by
  rcases h with ⟨x, y, hxy⟩
  exact ⟨x, y ++ b.data, by simp [hxy]⟩

theorem strContains_foldl_acc (sep p : String) (xs : List String) (acc : String)
    (h : strContains acc p) :
    strContains (xs.foldl (fun a s => a ++ sep ++ s) acc) p := by
  induction xs generalizing acc with
  | nil => exact h
  | cons x xs ih => exact ih _ (strContains_appR _ _ _ (strContains_appR _ _ _ h))

theorem strContains_foldl_mem (sep p : String) (xs : List String) (acc : String)
    (h : p ∈ xs) :
    strContains (xs.foldl (fun a s => a ++ sep ++ s) acc) p := by
  induction xs generalizing acc with
  | nil => cases h
  | cons x xs ih =>
    rcases List.mem_cons.mp h with h | h
    · subst h
      exact strContains_foldl_acc sep p xs (acc ++ sep ++ p)
        (strContains_appL (acc ++ sep) p p (strContains_refl p))
    · exact ih _ h

theorem goStringsJoin_contains (l : List String) (sep p : String) (h : p ∈ l) :
    strContains (goStringsJoin l sep) p := by
  cases l with
  | nil => cases h
  | cons x xs =>
    rcases List.mem_cons.mp h with h | h
    · subst h
      exact strContains_foldl_acc sep p xs p (strContains_refl p)
    · exact strContains_foldl_mem sep p xs x h

/-- Every missing import path occurs inside the no-commands-found fatal
message (the message enumerates the missing files). -/
theorem noCommandsMsg_contains (env : GoEnv) (name : String) (imports : List String)
    (p : String) (hp : p ∈ missingImportFiles env imports) :
    strContains (noCommandsMsg env name imports) p := by
  have hlen : (missingImportFiles env imports).length > 0 :=
    List.length_pos.mpr (List.ne_nil_of_mem hp)
  simp only [noCommandsMsg, hlen, if_true]
  apply strContains_appR
  apply strContains_appR
  apply strContains_appR
  apply strContains_appR
  apply strContains_appR
  apply strContains_appL
  exact goStringsJoin_contains _ _ _ hp

/-! ### Symmetry lemmas for compareVersions -/

theorem cmpIntStep_self (p : Int) : cmpIntStep p p = 0 := by
  simp [cmpIntStep]

theorem cmpIntStep_neg (p q : Int) : cmpIntStep q p = -cmpIntStep p q := by
  simp only [cmpIntStep]
  rcases lt_trichotomy p q with h | h | h
  · simp [h, asymm h]
  · subst h; simp
  · simp [h, asymm h]

theorem cmpPre_self : ∀ o : Option String, cmpPre o o = 0
  | none => rfl
  | some a => by simp [cmpPre, goStrLt_irrefl]

theorem cmpPre_neg : ∀ o1 o2 : Option String, cmpPre o2 o1 = -cmpPre o1 o2
  | none, none => rfl
  | none, some _ => rfl
  | some _, none => rfl
  | some a, some b => by
    cases hab : goStrLt a b with
    | true => simp [cmpPre, hab, goStrLt_asymm _ _ hab]
    | false =>
      cases hba : goStrLt b a with
      | true => simp [cmpPre, hab, hba]
      | false => simp [cmpPre, hab, hba]

theorem cvParts_self (ps : List String) (pre : Option String) : cvParts ps ps pre pre = 0 := by
  simp [cvParts, cmpIntStep_self, cmpPre_self]

theorem cvParts_neg (ps1 ps2 : List String) (pre1 pre2 : Option String) :
    cvParts ps2 ps1 pre2 pre1 = -cvParts ps1 ps2 pre1 pre2 := by
  simp only [cvParts, cmpIntStep_neg (partAt ps1 0) (partAt ps2 0),
    cmpIntStep_neg (partAt ps1 1) (partAt ps2 1),
    cmpIntStep_neg (partAt ps1 2) (partAt ps2 2), ne_eq, neg_eq_zero]
  split_ifs <;> first | rfl | exact cmpPre_neg _ _

/-- C7: compareVersions is reflexive-zero (compare(v, v) = 0 for every
version string) and antisymmetric (compare(a, b) = -compare(b, a) for all
version strings, hence in particular for all valid ones). -/
theorem compareVersions_refl_antisym :
    (∀ v, compareVersions v v = 0) ∧
    ∀ a b, compareVersions a b = -compareVersions b a := by
  constructor
  · intro v
    simp only [compareVersions]
    exact cvParts_self _ _
  · intro a b
    simp only [compareVersions]
    exact cvParts_neg _ _ _ _

/-- C10: a feature absent from the FeatureSupport table is supported by
every current version string, however old. -/
theorem versionSupports_unknown_feature (currentVersion feature : String)
    (h : FeatureSupport.lookup feature = none) :
    VersionSupports currentVersion feature = true := by
  simp [VersionSupports, h]

/-- C10 witness: the concrete feature no_such_feature is absent from the
table and reported supported under the old release version v0.0.1. -/
theorem versionSupports_unknown_feature_witness :
    FeatureSupport.lookup "no_such_feature" = none ∧
    VersionSupports "v0.0.1" "no_such_feature" = true :=
  ⟨rfl, versionSupports_unknown_feature "v0.0.1" "no_such_feature" rfl⟩

/-- C8: expandPath returns absolute paths unchanged; a tilde-slash path is
joined onto the home directory with the single leading separator of the
remainder stripped, so expandPath("~/.env", "/any/base") is home/.env; and
any other path is joined onto the base directory, so
expandPath("rel/path", "/base") is /base/rel/path. -/
theorem expandPath_spec :
    (∀ p baseDir home, goIsAbs p = true → expandPath p baseDir home = p) ∧
    (∀ r baseDir h, expandPath ("~/" ++ r) baseDir (some h) = goFilepathJoin h r) ∧
    expandPath "~/.env" "/any/base" (some "/home/tester") = "/home/tester/.env" ∧
    (∀ home, expandPath "rel/path" "/base" home = "/base/rel/path") := by
  refine ⟨?_, ?_, ?_, ?_⟩
  · intro p baseDir home h
    simp [expandPath, h]
  · intro r baseDir h
    have hdata : ("~/" ++ r).data = '~' :: '/' :: r.data := String.data_append "~/" r
    simp [expandPath, goIsAbs, goHasPrefix, hdata, List.isPrefixOf, string_mk_data]
  · rfl
  · intro home
    rfl

/-- C8 witness: the absolute-path clause applied at /abs/path. -/
theorem expandPath_spec_witness :
    expandPath "/abs/path" "/any/base" (some "/home/u") = "/abs/path" :=
  expandPath_spec.1 "/abs/path" "/any/base" (some "/home/u") rfl

/-- C3: ValidateConfig reports HasError exactly when some issue it returned
has error severity. -/
theorem validateConfig_hasError_iff (env : GoEnv) (config : Config) (configFile : String) :
    (ValidateConfig env config configFile).HasError = true ↔
    ∃ i ∈ (ValidateConfig env config configFile).Issues, i.severity = "error" := by
  by_cases hapi : config.ahoyapi = "v2"
  · simp only [ValidateConfig, hapi, ne_eq, not_true_eq_false, if_false, List.nil_append,
      List.mem_append, Bool.false_or, List.any_eq_true, beq_iff_eq]
    try tauto
  · constructor
    · intro _
      exact ⟨apiIssue configFile config.ahoyapi, by simp [ValidateConfig, hapi], rfl⟩
    · intro _
      simp [ValidateConfig, hapi]

/-- C3 witness: a config with a bad ahoyapi tag has HasError and an
error-severity issue. -/
theorem validateConfig_hasError_iff_witness :
    ∃ i ∈ (ValidateConfig envEmptyFs c4wCfg "/w/.ahoy.yml").Issues, i.severity = "error" :=
  (validateConfig_hasError_iff envEmptyFs c4wCfg "/w/.ahoy.yml").mp rfl

/-- C4 counterexample: under a simulated old engine (v2.1.0), a config with
ahoyapi v1 and an optional command yields two version_mismatch issues of
error severity, not exactly one as claimed. -/
theorem validateConfig_api_mismatch_counterexample :
    ((ValidateConfig envOldVersion c4Cfg "/w/.ahoy.yml").Issues.countP
      (fun i => i.type == "version_mismatch" && i.severity == "error")) = 2 ∧
    ((ValidateConfig envOldVersion c4Cfg "/w/.ahoy.yml").Issues.countP
      (fun i => i.type == "version_mismatch" && i.severity == "error")) ≠ 1 := by
  exact ⟨rfl, by decide⟩

/-- C4 (amended): for every configuration whose ahoyapi is not v2,
ValidateConfig returns HasError and at least one version_mismatch issue of
error severity; the issue raised for the ahoyapi field itself is among
them. (The original claim's "exactly one" fails: other feature checks can
add further version_mismatch/error issues.) -/
theorem validateConfig_api_mismatch (env : GoEnv) (config : Config) (configFile : String)
    (h : config.ahoyapi ≠ "v2") :
    (ValidateConfig env config configFile).HasError = true ∧
    ∃ i ∈ (ValidateConfig env config configFile).Issues,
      i.type = "version_mismatch" ∧ i.severity = "error" ∧ i.field = "ahoyapi" := by
  constructor
  · simp [ValidateConfig, h]
  · exact ⟨apiIssue configFile config.ahoyapi, by simp [ValidateConfig, h],
      rfl, rfl, rfl⟩

/-- C4 witness: the amended claim applied to a concrete v3-tagged config. -/
theorem validateConfig_api_mismatch_witness :
    (ValidateConfig envEmptyFs c4wCfg "/w/.ahoy.yml").HasError = true :=
  (validateConfig_api_mismatch envEmptyFs c4wCfg "/w/.ahoy.yml" (by decide)).1

/-! ### C9: getEnvironmentVars -/

theorem envVars_foldl (lines acc : List String) :
    lines.foldl
      (fun envVars line =>
        let line := goTrimSpace line
        if line = "" ∨ goHasPrefix line "#" then envVars else envVars ++ [line]) acc
    = acc ++ (lines.map goTrimSpace).filter (fun l => !(l == "" || goHasPrefix l "#")) := by
  induction lines generalizing acc with
  | nil => simp
  | cons x xs ih =>
    simp only [List.foldl_cons, List.map_cons, List.filter_cons]
    by_cases hx : goTrimSpace x = "" ∨ goHasPrefix (goTrimSpace x) "#" = true
    · have hb : (goTrimSpace x == "" || goHasPrefix (goTrimSpace x) "#") = true := by
        rcases hx with h | h
        · simp [h]
        · simp [h]
      simp only [hx, if_true, hb, Bool.not_true, ih]
      simp
    · push_neg at hx
      have hb : (goTrimSpace x == "" || goHasPrefix (goTrimSpace x) "#") = false := by
        simp [hx.1, hx.2]
      have hx' : ¬(goTrimSpace x = "" ∨ goHasPrefix (goTrimSpace x) "#" = true) := by
        push_neg
        exact hx
      simp only [hx', if_false, hb, Bool.not_false, ih, if_true]
      simp

/-- C9 counterexample: an env file whose first line carries surrounding
whitespace and whose second line is an indented comment is not returned
verbatim: the code trims each line before the blank/comment tests and
before returning it. -/
theorem getEnvironmentVars_not_verbatim :
    getEnvironmentVars c9Env "/base/.env" = ["A=1", "B=2"] ∧
    getEnvironmentVars c9Env "/base/.env" ≠ [" A=1", "  #note", "B=2"] := by
  exact ⟨rfl, by decide⟩

/-- C9 (amended): for every environment file present in the filesystem,
getEnvironmentVars returns the file's lines in order with surrounding
whitespace trimmed, skipping lines that are blank or start with the comment
marker after trimming; no quoting or escaping beyond that trim is applied
(each kept line is the trimmed line itself). -/
theorem getEnvironmentVars_trimmed (env : GoEnv) (file content : String)
    (h : env.fs file = some content) :
    getEnvironmentVars env file =
      ((goSplitChar content '\n').map goTrimSpace).filter
        (fun l => !(l == "" || goHasPrefix l "#")) := by
  have hex : fileExists env file = true := by simp [fileExists, h]
  simp only [getEnvironmentVars, hex, h]
  simpa using envVars_foldl (goSplitChar content '\n') []

/-- C9 witness: the amended claim applied to the concrete env file. -/
theorem getEnvironmentVars_trimmed_witness :
    getEnvironmentVars c9Env "/base/.env" =
      ((goSplitChar " A=1\n  #note\nB=2" '\n').map goTrimSpace).filter
        (fun l => !(l == "" || goHasPrefix l "#")) :=
  getEnvironmentVars_trimmed c9Env "/base/.env" " A=1\n  #note\nB=2" rfl

/-! ### Lemmas about the name→command merge table -/

theorem mapAssign_lookup_self (tbl : List (String × CobraCmd)) (k : String) (v : CobraCmd) :
    (mapAssign tbl k v).lookup k = some v := by
  induction tbl with
  | nil => simp [mapAssign, List.lookup]
  | cons p rest ih =>
    obtain ⟨k0, v0⟩ := p
    by_cases h : k0 = k
    · subst h
      simp [mapAssign, List.lookup]
    · simp only [mapAssign, h, if_false]
      rw [List.lookup]
      rw [show (k == k0) = false from beq_eq_false_iff_ne.mpr (Ne.symm h)]
      exact ih

theorem mapAssign_lookup_ne (tbl : List (String × CobraCmd)) (k : String) (v : CobraCmd)
    (k' : String) (h : k' ≠ k) :
    (mapAssign tbl k v).lookup k' = tbl.lookup k' := by
  induction tbl with
  | nil => simp [mapAssign, List.lookup, beq_eq_false_iff_ne.mpr h]
  | cons p rest ih =>
    obtain ⟨k0, v0⟩ := p
    by_cases hk : k0 = k
    · subst hk
      simp only [mapAssign, if_true]
      rw [List.lookup, List.lookup]
      rw [show (k' == k0) = false from beq_eq_false_iff_ne.mpr h]
    · simp only [mapAssign, hk, if_false]
      rw [List.lookup, List.lookup]
      cases hbeq : k' == k0 with
      | true => rfl
      | false => exact ih

theorem mapAssign_mem_entry (tbl : List (String × CobraCmd)) (k : String) (v : CobraCmd) :
    ∀ p ∈ mapAssign tbl k v, p = (k, v) ∨ p ∈ tbl := by
  induction tbl with
  | nil => simp [mapAssign]
  | cons q rest ih =>
    obtain ⟨k0, v0⟩ := q
    by_cases h : k0 = k
    · subst h
      intro p hp
      simp only [mapAssign, if_true] at hp
      rcases List.mem_cons.mp hp with hp | hp
      · exact Or.inl hp
      · exact Or.inr (List.mem_cons_of_mem _ hp)
    · intro p hp
      simp only [mapAssign, h, if_false] at hp
      rcases List.mem_cons.mp hp with hp | hp
      · exact Or.inr (hp ▸ List.mem_cons_self _ _)
      · rcases ih p hp with hp' | hp'
        · exact Or.inl hp'
        · exact Or.inr (List.mem_cons_of_mem _ hp')

theorem mapAssign_keys (tbl : List (String × CobraCmd)) (k : String) (v : CobraCmd) :
    (mapAssign tbl k v).map Prod.fst =
      if k ∈ tbl.map Prod.fst then tbl.map Prod.fst else tbl.map Prod.fst ++ [k] := by
  induction tbl with
  | nil => simp [mapAssign]
  | cons q rest ih =>
    obtain ⟨k0, v0⟩ := q
    by_cases h : k0 = k
    · subst h
      simp [mapAssign]
    · simp only [mapAssign, h, if_false, List.map_cons, ih, List.mem_cons]
      by_cases hk : k ∈ rest.map Prod.fst
      · simp [hk]
      · have hkk0 : ¬k = k0 := fun hcontra => h hcontra.symm
        simp [hk, hkk0]

theorem mapAssign_keys_nodup (tbl : List (String × CobraCmd)) (k : String) (v : CobraCmd)
    (h : (tbl.map Prod.fst).Nodup) : ((mapAssign tbl k v).map Prod.fst).Nodup := by
  rw [mapAssign_keys]
  by_cases hk : k ∈ tbl.map Prod.fst
  · simpa [hk] using h
  · simp only [hk, if_false]
    simp [List.nodup_append, h, hk]

theorem tblWF_mapAssign (tbl : List (String × CobraCmd)) (k : String) (v : CobraCmd)
    (hw : TblWF tbl) (hv : v.use = k) : TblWF (mapAssign tbl k v) := by
  refine ⟨?_, mapAssign_keys_nodup tbl k v hw.2⟩
  intro p hp
  rcases mapAssign_mem_entry tbl k v p hp with h | h
  · subst h
    exact hv
  · exact hw.1 p h

theorem tblWF_insertAll (tbl : List (String × CobraCmd)) (cmds : List CobraCmd)
    (hw : TblWF tbl) : TblWF (insertAll tbl cmds) := by
  induction cmds generalizing tbl with
  | nil => exact hw
  | cons c cs ih => exact ih _ (tblWF_mapAssign tbl c.use c hw rfl)

theorem assoc_lookup_mem {β : Type} (tbl : List (String × β)) (k : String) (v : β)
    (h : tbl.lookup k = some v) : (k, v) ∈ tbl := by
  induction tbl with
  | nil => simp [List.lookup] at h
  | cons p rest ih =>
    obtain ⟨k0, v0⟩ := p
    rw [List.lookup] at h
    cases hbeq : k == k0 with
    | true =>
      rw [hbeq] at h
      have hk : k = k0 := beq_iff_eq.mp hbeq
      subst hk
      injection h with hv
      subst hv
      exact List.mem_cons_self _ _
    | false =>
      rw [hbeq] at h
      exact List.mem_cons_of_mem _ (ih h)

theorem assoc_mem_keys_lookup {β : Type} (tbl : List (String × β)) (k : String)
    (h : k ∈ tbl.map Prod.fst) : ∃ v, tbl.lookup k = some v := by
  induction tbl with
  | nil => simp at h
  | cons p rest ih =>
    obtain ⟨k0, v0⟩ := p
    by_cases hk : k = k0
    · subst hk
      exact ⟨v0, by rw [List.lookup]; simp⟩
    · have hmem : k ∈ rest.map Prod.fst := by
        simpa [hk] using h
      obtain ⟨v, hv⟩ := ih hmem
      refine ⟨v, ?_⟩
      rw [List.lookup]
      rw [show (k == k0) = false from beq_eq_false_iff_ne.mpr hk]
      exact hv

theorem assoc_lookup_of_mem_nodup {β : Type} (tbl : List (String × β)) (k : String) (v : β)
    (h : (k, v) ∈ tbl) (hnd : (tbl.map Prod.fst).Nodup) : tbl.lookup k = some v := by
  induction tbl with
  | nil => cases h
  | cons p rest ih =>
    obtain ⟨k0, v0⟩ := p
    rcases List.mem_cons.mp h with heq | hmem
    · injection heq with h1 h2
      subst h1; subst h2
      rw [List.lookup]; simp
    · have hk : k ≠ k0 := by
        intro hcontra
        subst hcontra
        have : k ∈ rest.map Prod.fst := List.mem_map_of_mem Prod.fst hmem
        exact (List.nodup_cons.mp hnd).1 this
      rw [List.lookup]
      rw [show (k == k0) = false from beq_eq_false_iff_ne.mpr hk]
      exact ih hmem (List.nodup_cons.mp hnd).2

theorem find?_append' {α : Type} (p : α → Bool) (l1 l2 : List α) :
    (l1 ++ l2).find? p =
      match l1.find? p with
      | some a => some a
      | none => l2.find? p := by
  induction l1 with
  | nil => simp
  | cons x xs ih =>
    by_cases hx : p x = true
    · simp [List.find?_cons, hx]
    · have hx' : p x = false := by simpa using hx
      simp [List.find?_cons, hx', ih]

theorem insertAll_lookup (tbl : List (String × CobraCmd)) (cmds : List CobraCmd)
    (x : String) :
    (insertAll tbl cmds).lookup x =
      match cmds.reverse.find? (fun c => c.use == x) with
      | some c => some c
      | none => tbl.lookup x := by
  induction cmds generalizing tbl with
  | nil => simp [insertAll]
  | cons c cs ih =>
    show (insertAll (mapAssign tbl c.use c) cs).lookup x = _
    rw [ih, List.reverse_cons, find?_append']
    cases hfind : cs.reverse.find? (fun c => c.use == x) with
    | some c' => rfl
    | none =>
      by_cases hx : c.use = x
      · have hpred : (fun c => c.use == x) c = true := by simp [hx]
        simp only [List.find?_cons, hpred]
        rw [← hx]
        exact mapAssign_lookup_self tbl c.use c
      · have hpred : (fun c => c.use == x) c = false := by simp [hx]
        simp only [List.find?_cons, hpred, List.find?_nil]
        exact mapAssign_lookup_ne tbl c.use c x (Ne.symm hx)

theorem insertAll_lookup_of_not_mem (tbl : List (String × CobraCmd)) (cmds : List CobraCmd)
    (x : String) (hx : x ∉ cmds.map CobraCmd.use) :
    (insertAll tbl cmds).lookup x = tbl.lookup x := by
  rw [insertAll_lookup]
  have hfind : cmds.reverse.find? (fun c => c.use == x) = none := by
    rw [List.find?_eq_none]
    intro c hc
    have : c.use ≠ x := by
      intro hcontra
      exact hx (hcontra ▸ List.mem_map_of_mem CobraCmd.use (List.mem_reverse.mp hc))
    simp [this]
  rw [hfind]

theorem insertAll_lookup_last (tbl : List (String × CobraCmd)) (cmds : List CobraCmd)
    (x : String) (c : CobraCmd) (h : cmds.reverse.find? (fun c => c.use == x) = some c) :
    (insertAll tbl cmds).lookup x = some c := by
  rw [insertAll_lookup, h]

/-! ### Lemmas about resolveIncludes -/

theorem resolveIncludes_wf (rec : GoEnv → Config → BuildRes) (env : GoEnv)
    (incs : List String) (tbl : List (String × CobraCmd)) (logs : List String)
    (tbl' : List (String × CobraCmd)) (logs' : List String)
    (hw : TblWF tbl) (h : resolveIncludes rec env incs tbl logs = .ok (tbl', logs')) :
    TblWF tbl' := by
  induction incs generalizing tbl logs with
  | nil =>
    simp only [resolveIncludes, Except.ok.injEq, Prod.mk.injEq] at h
    exact h.1 ▸ hw
  | cons i rest ih =>
    simp only [resolveIncludes] at h
    cases hload : loadInclude rec env i with
    | error e => rw [hload] at h; cases h
    | ok r =>
      rw [hload] at h
      cases r with
      | skipped => exact ih tbl logs hw h
      | loadFailed m => exact ih tbl (logs ++ [m]) hw h
      | loaded cmds ls => exact ih _ _ (tblWF_insertAll tbl cmds hw) h

theorem resolveIncludes_log_shift (rec : GoEnv → Config → BuildRes) (env : GoEnv)
    (incs : List String) (tbl : List (String × CobraCmd)) (logs : List String) :
    resolveIncludes rec env incs tbl logs =
      (resolveIncludes rec env incs tbl []).map (fun r => (r.1, logs ++ r.2)) := by
  induction incs generalizing tbl logs with
  | nil => simp [resolveIncludes, Except.map]
  | cons i rest ih =>
    cases hload : loadInclude rec env i with
    | error e => simp [resolveIncludes, hload, Except.map]
    | ok r =>
      cases r with
      | skipped =>
        simp only [resolveIncludes, hload]
        exact ih tbl logs
      | loadFailed m =>
        simp only [resolveIncludes, hload]
        rw [ih tbl (logs ++ [m]), ih tbl ([] ++ [m])]
        cases hres : resolveIncludes rec env rest tbl [] <;>
          simp [Except.map, List.append_assoc]
      | loaded cmds ls =>
        simp only [resolveIncludes, hload]
        rw [ih (insertAll tbl cmds) (logs ++ ls), ih (insertAll tbl cmds) ([] ++ ls)]
        cases hres : resolveIncludes rec env rest (insertAll tbl cmds) [] <;>
          simp [Except.map, List.append_assoc]

theorem resolveIncludes_append (rec : GoEnv → Config → BuildRes) (env : GoEnv)
    (l1 l2 : List String) (tbl : List (String × CobraCmd)) (logs : List String) :
    resolveIncludes rec env (l1 ++ l2) tbl logs =
      match resolveIncludes rec env l1 tbl logs with
      | .error e => .error e
      | .ok (t, ls) => resolveIncludes rec env l2 t ls := by
  induction l1 generalizing tbl logs with
  | nil => simp [resolveIncludes]
  | cons i rest ih =>
    simp only [List.cons_append, resolveIncludes]
    cases loadInclude rec env i with
    | error e => rfl
    | ok r =>
      cases r with
      | skipped => exact ih tbl logs
      | loadFailed m => exact ih tbl (logs ++ [m])
      | loaded cmds ls => exact ih (insertAll tbl cmds) (logs ++ ls)

theorem resolveIncludes_no_contrib (rec : GoEnv → Config → BuildRes) (env : GoEnv)
    (incs : List String) (x : String) (tbl : List (String × CobraCmd)) (logs : List String)
    (tbl' : List (String × CobraCmd)) (logs' : List String)
    (hnc : ∀ i ∈ incs, ∀ cmds ls, loadInclude rec env i = .ok (.loaded cmds ls) →
      x ∉ cmds.map CobraCmd.use)
    (h : resolveIncludes rec env incs tbl logs = .ok (tbl', logs')) :
    tbl'.lookup x = tbl.lookup x := by
  induction incs generalizing tbl logs with
  | nil =>
    simp only [resolveIncludes, Except.ok.injEq, Prod.mk.injEq] at h
    rw [h.1]
  | cons i rest ih =>
    simp only [resolveIncludes] at h
    cases hload : loadInclude rec env i with
    | error e => rw [hload] at h; cases h
    | ok r =>
      rw [hload] at h
      cases r with
      | skipped => exact ih tbl logs (fun j hj => hnc j (List.mem_cons_of_mem _ hj)) h
      | loadFailed m => exact ih tbl (logs ++ [m]) (fun j hj => hnc j (List.mem_cons_of_mem _ hj)) h
      | loaded cmds ls =>
        have hx : x ∉ cmds.map CobraCmd.use :=
          hnc i (List.mem_cons_self _ _) cmds ls hload
        have step := ih _ _ (fun j hj => hnc j (List.mem_cons_of_mem _ hj)) h
        rw [step, insertAll_lookup_of_not_mem tbl cmds x hx]

/-! ### Lemmas extracting the sorted node list of getSubCommands -/

theorem filterMap_lookup_map_use (tbl : List (String × CobraCmd)) (names : List String)
    (hw : ∀ p ∈ tbl, p.2.use = p.1) (hmem : ∀ n ∈ names, n ∈ tbl.map Prod.fst) :
    (names.filterMap (fun n => tbl.lookup n)).map CobraCmd.use = names := by
  induction names with
  | nil => simp
  | cons n ns ih =>
    obtain ⟨v, hv⟩ := assoc_mem_keys_lookup tbl n (hmem n (List.mem_cons_self _ _))
    have huse : v.use = n := hw (n, v) (assoc_lookup_mem tbl n v hv)
    simp [List.filterMap_cons, hv, huse, ih (fun m hm => hmem m (List.mem_cons_of_mem _ hm))]

theorem nodes_filter_eq (tbl : List (String × CobraCmd)) (names : List String) (x : String)
    (cNode : CobraCmd)
    (hw : ∀ p ∈ tbl, p.2.use = p.1)
    (hmem : ∀ n ∈ names, n ∈ tbl.map Prod.fst)
    (hnd : names.Nodup)
    (hx : tbl.lookup x = some cNode)
    (hxn : x ∈ names) :
    (names.filterMap (fun n => tbl.lookup n)).filter (fun c => c.use == x) = [cNode] := by
  induction names with
  | nil => cases hxn
  | cons n ns ih =>
    obtain ⟨v, hv⟩ := assoc_mem_keys_lookup tbl n (hmem n (List.mem_cons_self _ _))
    have huse : v.use = n := hw (n, v) (assoc_lookup_mem tbl n v hv)
    by_cases hnx : n = x
    · subst hnx
      have hveq : v = cNode := by
        rw [hv] at hx
        injection hx
      have htail : ((ns.filterMap fun m => tbl.lookup m).filter (fun c => c.use == n)) = [] := by
        rw [List.filter_eq_nil_iff]
        intro c hc
        obtain ⟨m, hm, hcm⟩ := List.mem_filterMap.mp hc
        have hcu : c.use = m := hw (m, c) (assoc_lookup_mem tbl m c hcm)
        have hmn : m ≠ n := by
          intro hcontra
          exact (List.nodup_cons.mp hnd).1 (hcontra ▸ hm)
        simp [hcu, hmn]
      simp [List.filterMap_cons, hv, List.filter_cons, huse, hveq, htail]
      exact hveq ▸ huse
    · have hxns : x ∈ ns := by
        rcases List.mem_cons.mp hxn with hcontra | hmem'
        · exact absurd hcontra.symm hnx
        · exact hmem'
      have hpred : (v.use == x) = false := by
        rw [huse]
        exact beq_eq_false_iff_ne.mpr hnx
      simp only [List.filterMap_cons, hv, List.filter_cons, hpred, if_false]
      exact ih (fun m hm => hmem m (List.mem_cons_of_mem _ hm)) (List.nodup_cons.mp hnd).2 hxns

/-- C2: whenever getSubCommands succeeds, the returned sequence is strictly
sorted by name in Go's bytewise-lexicographic order (hence holds exactly one
node per distinct command name), and when the import list splits as
l1 ++ b :: l2 where b loads to a command set whose last definition of name x
is cNode and no later import contributes an x, the single node named x in
the result is exactly cNode: the later import in list order fully replaces
every earlier definition. -/
theorem getSubCommands_merge_sorted (fuel : Nat) (env : GoEnv) (includes : List String)
    (nodes : List CobraCmd) (logs : List String)
    (h : getSubCommands fuel env includes = .ok (nodes, logs)) :
    (nodes.map CobraCmd.use).Pairwise (fun a b => goStrLt a b = true) ∧
    (nodes.map CobraCmd.use).Nodup ∧
    ∀ l1 b l2 bCmds bLogs cNode x,
      includes = l1 ++ b :: l2 →
      loadInclude (getCommandsF fuel) env b = .ok (.loaded bCmds bLogs) →
      bCmds.reverse.find? (fun c => c.use == x) = some cNode →
      (∀ i ∈ l2, ∀ cmds ls, loadInclude (getCommandsF fuel) env i = .ok (.loaded cmds ls) →
        x ∉ cmds.map CobraCmd.use) →
      nodes.filter (fun c => c.use == x) = [cNode] := by
  by_cases hlen : includes.length = 0
  · have hnil : includes = [] := List.length_eq_zero.mp hlen
    subst hnil
    simp only [getSubCommands, getSubCommandsAux, List.length_nil, if_true] at h
    obtain ⟨hnodes, _⟩ : [] = nodes ∧ [] = logs := by
      simpa using h
    refine ⟨?_, ?_, ?_⟩
    · rw [← hnodes]; simp
    · rw [← hnodes]; simp
    · intro l1 b l2 bCmds bLogs cNode x heq
      exact absurd heq (by cases l1 <;> simp)
  · simp only [getSubCommands, getSubCommandsAux, hlen, if_false] at h
    cases hres : resolveIncludes (getCommandsF fuel) env includes [] [] with
    | error e => rw [hres] at h; cases h
    | ok pr =>
      obtain ⟨tbl, logs0⟩ := pr
      rw [hres] at h
      obtain ⟨hnodes, hlogs⟩ :
          (sortStrings (tbl.map Prod.fst)).filterMap (fun n => tbl.lookup n) = nodes ∧
          logs0 = logs := by
        simpa using h
      have hwf : TblWF tbl :=
        resolveIncludes_wf _ _ _ [] [] tbl logs0 ⟨by simp, by simp⟩ hres
      have hmemnames : ∀ n ∈ sortStrings (tbl.map Prod.fst), n ∈ tbl.map Prod.fst :=
        fun n hn => (sortStrings_mem n _).mp hn
      have hmapuse : nodes.map CobraCmd.use = sortStrings (tbl.map Prod.fst) := by
        rw [← hnodes]
        exact filterMap_lookup_map_use tbl _ hwf.1 hmemnames
      refine ⟨?_, ?_, ?_⟩
      · rw [hmapuse]
        exact sortStrings_pairwise_lt _ hwf.2
      · rw [hmapuse]
        exact sortStrings_nodup _ hwf.2
      · intro l1 b l2 bCmds bLogs cNode x heq hload hfind hnc
        subst heq
        rw [resolveIncludes_append] at hres
        cases hres1 : resolveIncludes (getCommandsF fuel) env l1 [] [] with
        | error e => rw [hres1] at hres; cases hres
        | ok pr1 =>
          obtain ⟨t1, ls1⟩ := pr1
          rw [hres1] at hres
          simp only [resolveIncludes, hload] at hres
          have hlook1 : (insertAll t1 bCmds).lookup x = some cNode :=
            insertAll_lookup_last t1 bCmds x cNode hfind
          have hlook : tbl.lookup x = some cNode := by
            rw [resolveIncludes_no_contrib _ _ l2 x _ _ tbl logs0 hnc hres]
            exact hlook1
          have hxkeys : x ∈ tbl.map Prod.fst :=
            List.mem_map_of_mem Prod.fst (assoc_lookup_mem tbl x cNode hlook)
          have hxnames : x ∈ sortStrings (tbl.map Prod.fst) :=
            (sortStrings_mem _ _).mpr hxkeys
          rw [← hnodes]
          exact nodes_filter_eq tbl _ x cNode hwf.1 hmemnames
            (sortStrings_nodup _ hwf.2) hlook hxnames

/-- C2 witness: merging a.yml and b.yml (both defining x) and c.yml
(defining y) yields duplicate-free names and the single x node equal to
b.yml's definition. -/
theorem getSubCommands_merge_sorted_witness :
    ([nodeXB, nodeY].map CobraCmd.use).Nodup ∧
    [nodeXB, nodeY].filter (fun c => c.use == "x") = [nodeXB] := by
  have h := getSubCommands_merge_sorted 1 envMulti ["a.yml", "b.yml", "c.yml"]
    [nodeXB, nodeY] [] rfl
  refine ⟨h.2.1, ?_⟩
  refine h.2.2 ["a.yml"] "b.yml" ["c.yml"] [nodeXB] [] nodeXB "x" rfl rfl rfl ?_
  intro i hi cmds ls hl
  have hi' : i = "c.yml" := by simpa using hi
  subst hi'
  rw [show loadInclude (getCommandsF 1) envMulti "c.yml" =
    .ok (.loaded [nodeY] []) from rfl] at hl
  obtain ⟨hc, _⟩ : [nodeY] = cmds ∧ ([] : List String) = ls := by
    simpa using hl
  rw [← hc]
  decide

/-- C6: an import reference whose file exists but fails to load (parse
error or unsupported version) is logged and skipped: the nodes
getSubCommands returns (and whether it aborts) are the same as if the
reference were absent, and on success the log contains the non-fatal error
entry for that reference. -/
theorem getSubCommands_skip_failed (fuel : Nat) (env : GoEnv) (l1 : List String)
    (bad : String) (l2 : List String) (m : String)
    (hload : loadInclude (getCommandsF fuel) env bad = .ok (.loadFailed m)) :
    (getSubCommands fuel env (l1 ++ bad :: l2)).map Prod.fst =
      (getSubCommands fuel env (l1 ++ l2)).map Prod.fst ∧
    ∀ nodes logs, getSubCommands fuel env (l1 ++ bad :: l2) = .ok (nodes, logs) →
      m ∈ logs := by
  have hL : ¬((l1 ++ bad :: l2).length = 0) := by simp
  by_cases h12 : l1 ++ l2 = []
  · obtain ⟨h1, h2⟩ : l1 = [] ∧ l2 = [] := List.append_eq_nil.mp h12
    subst h1; subst h2
    have hcomp : getSubCommands fuel env ([] ++ bad :: []) = .ok ([], [m]) := by
      simp [getSubCommands, getSubCommandsAux, resolveIncludes, hload, sortStrings]
    constructor
    · rw [hcomp]
      rfl
    · intro nodes logs h
      rw [hcomp] at h
      obtain ⟨_, hlg⟩ : ([] : List CobraCmd) = nodes ∧ [m] = logs := by simpa using h
      rw [← hlg]
      exact List.mem_singleton_self m
  · have hR : ¬((l1 ++ l2).length = 0) := by simpa using h12
    cases hres1 : resolveIncludes (getCommandsF fuel) env l1 [] [] with
    | error e =>
      have hres : resolveIncludes (getCommandsF fuel) env (l1 ++ bad :: l2) [] [] =
          .error e := by
        rw [resolveIncludes_append, hres1]
      have hres' : resolveIncludes (getCommandsF fuel) env (l1 ++ l2) [] [] = .error e := by
        rw [resolveIncludes_append, hres1]
      constructor
      · simp only [getSubCommands, getSubCommandsAux, hL, hR, if_false, hres, hres']
      · intro nodes logs h
        simp only [getSubCommands, getSubCommandsAux, hL, if_false, hres] at h
        cases h
    | ok pr1 =>
      obtain ⟨t1, ls1⟩ := pr1
      have hres : resolveIncludes (getCommandsF fuel) env (l1 ++ bad :: l2) [] [] =
          (resolveIncludes (getCommandsF fuel) env l2 t1 []).map
            (fun r => (r.1, (ls1 ++ [m]) ++ r.2)) := by
        rw [resolveIncludes_append, hres1]
        simp only [resolveIncludes, hload]
        exact resolveIncludes_log_shift _ _ l2 t1 (ls1 ++ [m])
      have hres' : resolveIncludes (getCommandsF fuel) env (l1 ++ l2) [] [] =
          (resolveIncludes (getCommandsF fuel) env l2 t1 []).map
            (fun r => (r.1, ls1 ++ r.2)) := by
        rw [resolveIncludes_append, hres1]
        exact resolveIncludes_log_shift _ _ l2 t1 ls1
      cases hres2 : resolveIncludes (getCommandsF fuel) env l2 t1 [] with
      | error e =>
        rw [hres2] at hres hres'
        simp only [Except.map] at hres hres'
        constructor
        · simp only [getSubCommands, getSubCommandsAux, hL, hR, if_false, hres, hres']
        · intro nodes logs h
          simp only [getSubCommands, getSubCommandsAux, hL, if_false, hres] at h
          cases h
      | ok pr2 =>
        obtain ⟨t2, ls2⟩ := pr2
        rw [hres2] at hres hres'
        simp only [Except.map] at hres hres'
        constructor
        · simp only [getSubCommands, getSubCommandsAux, hL, hR, if_false, hres, hres']
          rfl
        · intro nodes logs h
          simp only [getSubCommands, getSubCommandsAux, hL, if_false, hres] at h
          obtain ⟨_, hlg⟩ :
              (sortStrings (t2.map Prod.fst)).filterMap (fun n => t2.lookup n) = nodes ∧
              (ls1 ++ [m]) ++ ls2 = logs := by
            simpa using h
          rw [← hlg]
          exact List.mem_append_left ls2 (List.mem_append_right ls1 (List.mem_singleton_self m))

/-- C6 witness: the unparsable bad.yml is skipped with a log entry while
its sibling c.yml still resolves. -/
theorem getSubCommands_skip_failed_witness :
    (getSubCommands 1 envMulti ([] ++ "bad.yml" :: ["c.yml"])).map Prod.fst =
      (getSubCommands 1 envMulti ([] ++ ["c.yml"])).map Prod.fst ∧
    c6msg ∈ ["Could not load imported config '/base/bad.yml': yaml: boom"] := by
  have h := getSubCommands_skip_failed 1 envMulti [] "bad.yml" ["c.yml"] c6msg rfl
  exact ⟨h.1, h.2 [nodeY] ["Could not load imported config '/base/bad.yml': yaml: boom"] rfl⟩

/-! ### C1: import-bearing commands whose resolution yields no nodes -/

/-- C1: for every command with imports set whose import resolution yields
zero nodes: if the command is not optional the build fails fatally and the
message contains every missing import path; if it is optional but the
running engine does not support optional_imports the build also fails
fatally; if it is optional and the feature is supported the command is
dropped (the loop body yields no node, and a configuration holding the
command builds to a tree without it, with no error). -/
theorem getCommands_empty_imports (fuel : Nat) (env : GoEnv) (name : String)
    (cmd : Command) (l : List String) (cfg : Config) (logs : List String)
    (himp : cmd.imports = some l) (hne : l ≠ []) (hcmd : cmd.cmd = "")
    (hsub : getSubCommands fuel env l = .ok ([], logs)) :
    (∀ ep ev, cmd.optional = false →
      buildOne (getCommandsF fuel) env ep ev name cmd =
        .error (.fatal (noCommandsMsg env name l)) ∧
      ∀ p ∈ missingImportFiles env l, strContains (noCommandsMsg env name l) p) ∧
    (∀ ep ev, cmd.optional = true →
      VersionSupports (ahoyVersion env) "optional_imports" = false →
      buildOne (getCommandsF fuel) env ep ev name cmd =
        .error (.fatal (optionalUnsupportedMsg env name))) ∧
    (∀ ep ev, cmd.optional = true →
      VersionSupports (ahoyVersion env) "optional_imports" = true →
      buildOne (getCommandsF fuel) env ep ev name cmd = .ok (none, logs)) ∧
    (cfg.commands = [(name, cmd)] → cfg.env = [] →
      (cmd.optional = false →
        getCommands (fuel + 1) env cfg = .error (.fatal (noCommandsMsg env name l))) ∧
      (cmd.optional = true → VersionSupports (ahoyVersion env) "optional_imports" = false →
        getCommands (fuel + 1) env cfg = .error (.fatal (optionalUnsupportedMsg env name))) ∧
      (cmd.optional = true → VersionSupports (ahoyVersion env) "optional_imports" = true →
        getCommands (fuel + 1) env cfg = .ok ([], logs))) := by
  simp only [getSubCommands] at hsub
  have hsome : cmd.imports ≠ none := by simp [himp]
  have hnotempty : cmd.imports ≠ some [] := by simp [himp, hne]
  have hbuild : ∀ ep ev, buildOne (getCommandsF fuel) env ep ev name cmd =
      (if cmd.optional = false then
        .error (.fatal (noCommandsMsg env name l))
      else if VersionSupports (ahoyVersion env) "optional_imports" = false then
        .error (.fatal (optionalUnsupportedMsg env name))
      else .ok (none, logs)) := by
    intro ep ev
    simp only [buildOne, hcmd, hsome, hnotempty, himp, hsub, hne]
    simp [hne]
  refine ⟨?_, ?_, ?_, ?_⟩
  · intro ep ev hopt
    refine ⟨?_, fun p hp => noCommandsMsg_contains env name l p hp⟩
    rw [hbuild ep ev, hopt]
    simp only [if_true]
  · intro ep ev hopt hvs
    rw [hbuild ep ev, hopt, hvs]
    simp only [Bool.true_eq_false, if_false, if_true]
  · intro ep ev hopt hvs
    rw [hbuild ep ev, hopt, hvs]
    simp
  · intro hcfg henv
    have hcore : ∀ r, buildOne (getCommandsF fuel) env (cfg.entrypoint.getD []) [] name cmd = r →
        getCommands (fuel + 1) env cfg =
          (match r with
           | .error e => .error e
           | .ok (oc, ls) => .ok (oc.toList, ls)) := by
      intro r hr
      cases r with
      | error e =>
        simp [getCommands, getCommandsF, getCommandsCore, hcfg, henv, sortStrings,
          orderedInsert, buildLoop, List.lookup, hr]
      | ok p =>
        obtain ⟨oc, ls⟩ := p
        simp [getCommands, getCommandsF, getCommandsCore, hcfg, henv, sortStrings,
          orderedInsert, buildLoop, List.lookup, hr]
    refine ⟨?_, ?_, ?_⟩
    · intro hopt
      exact hcore _ (by rw [hbuild, hopt])
    · intro hopt hvs
      exact hcore _ (by rw [hbuild, hopt, hvs])
    · intro hopt hvs
      have := hcore (.ok (none, logs)) (by rw [hbuild, hopt, hvs]; simp)
      simpa using this

/-- C1 witness: a required command importing only a missing file fails
fatally with the enumerating message. -/
theorem getCommands_empty_imports_witness :
    getCommands 2 envEmptyFs cfgGroup =
      .error (.fatal (noCommandsMsg envEmptyFs "group" ["missing.yml"])) :=
  ((getCommands_empty_imports 1 envEmptyFs "group" cmdGroup ["missing.yml"] cfgGroup []
      rfl (by decide) rfl rfl).2.2.2 rfl rfl).1 rfl

/-! ### C5: schema violations are fatal -/

theorem buildLoop_ok_all (rec : GoEnv → Config → BuildRes) (env : GoEnv) (cfg : Config)
    (ep ev : List String) (ks : List String) (acc : List CobraCmd) (logs : List String)
    (r : List CobraCmd × List String)
    (h : buildLoop rec env cfg ep ev ks acc logs = .ok r) :
    ∀ k ∈ ks, ∀ c, cfg.commands.lookup k = some c →
      ∃ v, buildOne rec env ep ev k c = .ok v := by
  induction ks generalizing acc logs with
  | nil => intro k hk; cases hk
  | cons k0 rest ih =>
    intro k hk c hc
    cases hl : cfg.commands.lookup k0 with
    | none =>
      simp only [buildLoop, hl] at h
      rcases List.mem_cons.mp hk with hk0 | hk'
      · subst hk0
        rw [hc] at hl
        exact Option.noConfusion hl
      · exact ih acc logs h k hk' c hc
    | some c0 =>
      cases hb : buildOne rec env ep ev k0 c0 with
      | error e =>
        simp only [buildLoop, hl, hb] at h
        exact Except.noConfusion h
      | ok v =>
        simp only [buildLoop, hl, hb] at h
        rcases List.mem_cons.mp hk with hk0 | hk'
        · subst hk0
          rw [hc] at hl
          injection hl with hl
          exact ⟨v, hl ▸ hb⟩
        · exact ih _ _ h k hk' c hc

/-- C5: a command with neither cmd nor imports, with both, or with a
present-but-empty imports list is rejected fatally by the schema checks of
the command-tree builder; consequently building a configuration containing
any such command fails. -/
theorem getCommands_schema_violations :
    (∀ rec env ep ev name (cmd : Command), cmd.cmd = "" → cmd.imports = none →
      buildOne rec env ep ev name cmd = .error (.fatal (neitherMsg name))) ∧
    (∀ rec env ep ev name (cmd : Command), cmd.cmd ≠ "" → cmd.imports ≠ none →
      buildOne rec env ep ev name cmd = .error (.fatal (bothMsg name))) ∧
    (∀ rec env ep ev name (cmd : Command), cmd.imports = some [] →
      ∃ m, buildOne rec env ep ev name cmd = .error (.fatal m)) ∧
    (∀ fuel env (cfg : Config), (cfg.commands.map Prod.fst).Nodup →
      (∃ nc ∈ cfg.commands, (nc.2.cmd = "" ∧ nc.2.imports = none) ∨
        (nc.2.cmd ≠ "" ∧ nc.2.imports ≠ none) ∨ nc.2.imports = some []) →
      ∃ e, getCommands (fuel + 1) env cfg = .error e) := by
  have part1 : ∀ rec env ep ev name (cmd : Command), cmd.cmd = "" → cmd.imports = none →
      buildOne rec env ep ev name cmd = .error (.fatal (neitherMsg name)) := by
    intro rec env ep ev name cmd h1 h2
    simp [buildOne, h1, h2]
  have part2 : ∀ rec env ep ev name (cmd : Command), cmd.cmd ≠ "" → cmd.imports ≠ none →
      buildOne rec env ep ev name cmd = .error (.fatal (bothMsg name)) := by
    intro rec env ep ev name cmd h1 h2
    simp [buildOne, h1, h2]
  have part3 : ∀ rec env ep ev name (cmd : Command), cmd.imports = some [] →
      ∃ m, buildOne rec env ep ev name cmd = .error (.fatal m) := by
    intro rec env ep ev name cmd h
    by_cases hc : cmd.cmd = ""
    · refine ⟨emptyImportsMsg name, ?_⟩
      have hsome : cmd.imports ≠ none := by simp [h]
      simp [buildOne, hc, hsome, h]
    · exact ⟨bothMsg name, part2 rec env ep ev name cmd hc (by simp [h])⟩
  refine ⟨part1, part2, part3, ?_⟩
  intro fuel env cfg hnd hex
  obtain ⟨⟨k, c⟩, hmem, hviol⟩ := hex
  cases hres : getCommands (fuel + 1) env cfg with
  | error e => exact ⟨e, rfl⟩
  | ok r =>
    exfalso
    have hres' : buildLoop (getCommandsF fuel) env cfg (cfg.entrypoint.getD [])
        (cfg.env.foldl (fun envVars envPath =>
          envVars ++ getEnvironmentVars env (expandPath envPath env.srcDir env.home)) [])
        (sortStrings (cfg.commands.map Prod.fst)) [] [] = .ok r := hres
    have hk : k ∈ sortStrings (cfg.commands.map Prod.fst) :=
      (sortStrings_mem _ _).mpr (List.mem_map_of_mem Prod.fst hmem)
    have hlook : cfg.commands.lookup k = some c :=
      assoc_lookup_of_mem_nodup cfg.commands k c hmem hnd
    obtain ⟨v, hb⟩ := buildLoop_ok_all _ _ _ _ _ _ _ _ _ hres' k hk c hlook
    rcases hviol with ⟨h1, h2⟩ | ⟨h1, h2⟩ | h1
    · rw [part1 _ _ _ _ _ _ h1 h2] at hb
      cases hb
    · rw [part2 _ _ _ _ _ _ h1 h2] at hb
      cases hb
    · obtain ⟨msg, hmsg⟩ := part3 (getCommandsF fuel) env (cfg.entrypoint.getD [])
        (cfg.env.foldl (fun envVars envPath =>
          envVars ++ getEnvironmentVars env (expandPath envPath env.srcDir env.home)) [])
        k c h1
      rw [hmsg] at hb
      cases hb

/-- C5 witness: the command with neither cmd nor imports fails with the
SchemaViolation message, and a config containing it fails to build. -/
theorem getCommands_schema_violations_witness :
    buildOne (getCommandsF 0) envEmptyFs [] [] "bad" cmdNeither =
      .error (.fatal (neitherMsg "bad")) ∧
    ∃ e, getCommands 1 envEmptyFs cfgNeither = .error e :=
  ⟨getCommands_schema_violations.1 (getCommandsF 0) envEmptyFs [] [] "bad" cmdNeither rfl rfl,
   getCommands_schema_violations.2.2.2 0 envEmptyFs cfgNeither (by decide)
     ⟨("bad", cmdNeither), by decide, Or.inl ⟨rfl, rfl⟩⟩⟩

end Ahoy
